import Mathlib

/-!
Verification development for the WMS inventory allocation engine.

This file gives a shallow embedding of the engine found in the repository:
  * `inventory/models.py` — `Batch.reserve`, `TransactionLog.save`,
    `UndoStack`/`RedoStack` push/pop, the data model;
  * `inventory/services/structures.py` — `ManualStack`;
  * `inventory/services/allocation.py` — `allocate_order` and
    `_allocate_item_with_stack`;
  * `inventory/views.py` — `DeallocateOrderView.post`;
  * `inventory/services/undo_redo.py` — `perform_undo` / `perform_redo`.

Quantities are `DecimalField(decimal_places=3)` in the source; all claims use
whole quantities, and the arithmetic performed (add, subtract, min, compare)
is exact on integers, so quantities are modelled as `Int`.  Dates are
modelled as integer day numbers (`expiry_date : Option Int`, with `today`
passed explicitly where `timezone.now().date()` is read).

The database is modelled as an explicit `State` record threaded through the
operations; Django's `transaction.atomic()` blocks are modelled by returning
the entry state whenever an exception escapes the block (rollback), and the
modified state when the block exits normally (commit).  Row ordering of a
queryset without an ORDER BY follows the insertion order of the lists.

One genuinely backend-dependent point is kept as a parameter: the candidate
query `order_by("expiry_date", "pk")` leaves the placement of NULL expiry
dates to the database.  The project's default backend (sqlite3, per
`wms_project/settings.py`) sorts NULLs first in ascending order; PostgreSQL
(used when `DATABASE_URL` is set) sorts them last.  The boolean `nullsLast`
parameter selects between the two.
-/

/-- Status choices of `Batch` (`inventory/models.py`). -/
inductive BatchStatus where
  | available
  | reserved
  | hold
  | expired
deriving DecidableEq, Repr

/-- Status choices of `Order` (`inventory/models.py`). -/
inductive OrderStatus where
  | new
  | allocated
  | picked
  | shipped
  | delivered
  | cancelled
deriving DecidableEq, Repr

/-- Levels of `Notification` (`inventory/models.py`). -/
inductive NotifLevel where
  | info
  | warning
  | error
deriving DecidableEq, Repr

/-- `Item` (`inventory/models.py`): only the fields the engine reads. -/
structure Item where
  id : Nat
  sku : String
deriving DecidableEq, Repr

/-- `Batch` (`inventory/models.py`).  `expiryDate` is `None` or a day number. -/
structure Batch where
  id : Nat
  itemId : Nat
  lotNo : String
  receivedQty : Int
  availableQty : Int
  expiryDate : Option Int
  status : BatchStatus
deriving DecidableEq, Repr

/-- `Order` (`inventory/models.py`). -/
structure Order where
  id : Nat
  orderNo : String
  status : OrderStatus
deriving DecidableEq, Repr

/-- `OrderItem` (`inventory/models.py`). -/
structure OrderItem where
  id : Nat
  orderId : Nat
  itemId : Nat
  qtyRequested : Int
  qtyAllocated : Int
deriving DecidableEq, Repr

/-- `Allocation` (`inventory/models.py`): links an order item to a batch. -/
structure Allocation where
  id : Nat
  orderItemId : Nat
  batchId : Nat
  qtyAllocated : Int
deriving DecidableEq, Repr

/-- A persisted `Notification` row; the engine only ever sets the level
(the message text carries no state the claims depend on). -/
structure Notification where
  level : NotifLevel
deriving DecidableEq, Repr

/-- A `TransactionLog` row as written by the engine paths
(`type`, `qty`, optional batch reference). -/
structure TxnEntry where
  ttype : String
  qty : Int
  batchId : Option Nat
deriving DecidableEq, Repr

/-- An `UndoStack` / `RedoStack` row.  `models.py` defines exactly the fields
`op_name`, `metadata`, `created_at` on these models; there is no
`operation_type`, `data`, `user` or `description` field. -/
structure StackRec where
  opName : String
  metadata : List (String × String)
deriving DecidableEq, Repr

/-- Names of the attributes that exist on an `UndoStack` / `RedoStack` row
(the Django model fields).  Accessing any other attribute on such a row
raises `AttributeError` in Python. -/
def stackRecHasAttr (name : String) : Bool :=
  name == "op_name" || name == "metadata" || name == "created_at"

/-- The database state threaded through the engine operations. -/
structure State where
  items : List Item
  batches : List Batch
  orders : List Order
  orderItems : List OrderItem
  allocations : List Allocation
  notifications : List Notification
  txnLogs : List TxnEntry
  undoStack : List StackRec
  redoStack : List StackRec
  nextAllocationId : Nat
deriving DecidableEq, Repr

/-- `Batch.objects.get(pk=bid)` (row lookup by primary key). -/
def findBatch (st : State) (bid : Nat) : Option Batch :=
  st.batches.find? (fun b => b.id == bid)

/-- `Order.objects.get(pk=oid)`. -/
def findOrder (st : State) (oid : Nat) : Option Order :=
  st.orders.find? (fun o => o.id == oid)

/-- `Item.objects.get(pk=iid)` (FK dereference `order_item.item`). -/
def findItem (st : State) (iid : Nat) : Option Item :=
  st.items.find? (fun i => i.id == iid)

/-- `OrderItem.objects.get(pk=i)` (used to model `refresh_from_db`). -/
def findOrderItem (st : State) (oiid : Nat) : Option OrderItem :=
  st.orderItems.find? (fun oi => oi.id == oiid)

/-- `Batch.objects.filter(pk=bid).update(available_qty=F("available_qty") + d)`. -/
def bumpBatchQty (st : State) (bid : Nat) (d : Int) : State :=
  { st with batches := st.batches.map (fun b =>
      if b.id == bid then { b with availableQty := b.availableQty + d } else b) }

/-- `order.status = s; order.save(update_fields=["status"])`. -/
def setOrderStatus (st : State) (oid : Nat) (s : OrderStatus) : State :=
  { st with orders := st.orders.map (fun o =>
      if o.id == oid then { o with status := s } else o) }

/-- Failure modes of `Batch.reserve` (`inventory/models.py`): the three
`ValueError` sites, distinguished by their messages, plus the
`Batch.DoesNotExist` of the locked re-fetch.
`badQty` is "Reserve quantity must be > 0"; `invalidState` is
"Batch is not in AVAILABLE status" (the spec's `InvalidStateError`);
`insufficientStock` is "Insufficient quantity in batch" (the spec's
`InsufficientStockError`). -/
inductive ReserveError where
  | badQty
  | invalidState
  | insufficientStock
  | doesNotExist
deriving DecidableEq, Repr

/-- `Batch.reserve(qty)` (`inventory/models.py` lines 128-149), at the level
of the database state.  The guard on `qty` runs before the transaction and
the row lock are entered; inside the transaction the row is re-fetched under
lock, the status and quantity checks run, and on success the row is
decremented with an F-expression and the refreshed value returned.  A failure
leaves the state exactly as it was. -/
def reserveBatch (st : State) (bid : Nat) (qty : Int) :
    Except ReserveError Int × State :=
  if qty ≤ 0 then (Except.error ReserveError.badQty, st)
  else
    match findBatch st bid with
    | none => (Except.error ReserveError.doesNotExist, st)
    | some locked =>
        if locked.status ≠ BatchStatus.available then
          (Except.error ReserveError.invalidState, st)
        else if locked.availableQty < qty then
          (Except.error ReserveError.insufficientStock, st)
        else
          (Except.ok (locked.availableQty - qty), bumpBatchQty st bid (-qty))

/-- A `TransactionLog` record as a Django model instance: `pk` is `None`
before the first save and set afterwards (`inventory/models.py`). -/
structure TransactionLog where
  pk : Option Nat
  ttype : String
  qty : Int
  batchId : Option Nat
deriving DecidableEq, Repr

/-- `TransactionLog.save` (`inventory/models.py` lines 439-442): an instance
that already has a primary key raises
`ValueError("TransactionLog records are immutable and cannot be updated")`;
a fresh instance is inserted and given the next primary key.  The stored
table is returned unchanged on the error path. -/
def TransactionLog.save (log : TransactionLog) (store : List TransactionLog)
    (nextPk : Nat) :
    Except String (TransactionLog × Nat) × List TransactionLog :=
  match log.pk with
  | some _ =>
      (Except.error "TransactionLog records are immutable and cannot be updated",
       store)
  | none =>
      let saved := { log with pk := some nextPk }
      (Except.ok (saved, nextPk + 1), store ++ [saved])

/-- `ManualStack` (`inventory/services/structures.py`): a dynamic
array-backed LIFO stack; `data` is the backing array of slots (Python list of
`None`-initialised slots) and `top` points at the next free slot. -/
structure ManualStack (α : Type) where
  data : List (Option α)
  top : Nat
deriving DecidableEq, Repr

/-- `ManualStack.__init__(capacity)`: a non-positive capacity falls back to
16; the backing array starts as `[None] * capacity`. -/
def ManualStack.mkStack (cap : Nat) : ManualStack α :=
  let c := if cap = 0 then 16 else cap
  { data := List.replicate c none, top := 0 }

/-- `ManualStack._grow`: extend the backing array with `None` slots up to
`max(2 * len, 16)`. -/
def ManualStack.grow (s : ManualStack α) : ManualStack α :=
  { s with data :=
      s.data ++ List.replicate (max (2 * s.data.length) 16 - s.data.length) none }

/-- `ManualStack.push`. -/
def ManualStack.push (s : ManualStack α) (v : α) : ManualStack α :=
  let s := if s.top = s.data.length then s.grow else s
  { data := s.data.set s.top (some v), top := s.top + 1 }

/-- `ManualStack.pop`: `none` models the `IndexError` on an empty stack.
On a well-formed stack the slot below `top` always holds a value; the final
catch-all (an empty slot below `top`, impossible for stacks built by `push`)
also returns `none`. -/
def ManualStack.pop (s : ManualStack α) : Option (α × ManualStack α) :=
  if s.top = 0 then none
  else
    match s.data.get? (s.top - 1) with
    | some (some v) =>
        some (v, { data := s.data.set (s.top - 1) none, top := s.top - 1 })
    | _ => none

/-- `for x in l: stack.push(x)`. -/
def ManualStack.pushList (s : ManualStack α) (l : List α) : ManualStack α :=
  l.foldl ManualStack.push s

/-- Pop up to `fuel` values off the stack, collecting them in order. -/
def ManualStack.drainFuel (fuel : Nat) (s : ManualStack α) : List α :=
  match fuel with
  | 0 => []
  | fuel + 1 =>
      match s.pop with
      | none => []
      | some (v, s') => v :: ManualStack.drainFuel fuel s'

/-- The abstract contents of a `ManualStack`, bottom first: the backing array
is the pushed values followed by empty padding slots, and `top` counts the
values.  Every stack reachable from `mkStack` by `push`/`pop` has this
shape. -/
def ManualStack.Rep (s : ManualStack α) (l : List α) : Prop :=
  ∃ pad, s.data = l.map some ++ List.replicate pad none ∧ s.top = l.length

/-- The ascending sort key of the candidate query
`order_by("expiry_date", "pk")` in `_allocate_item_with_stack`
(`inventory/services/allocation.py`).  The placement of NULL expiry dates is
decided by the database backend: `nullsLast = false` is the project's default
sqlite3 backend (NULLs sort before every value in ascending order),
`nullsLast = true` is PostgreSQL (NULLs sort after every value).  Ties on the
expiry date are broken by the primary key, which is unique. -/
def batchKeyLe (nullsLast : Bool) (a b : Batch) : Bool :=
  let rank : Batch → Nat := fun c =>
    match c.expiryDate with
    | none => if nullsLast then 1 else 0
    | some _ => if nullsLast then 0 else 1
  let dval : Batch → Int := fun c => c.expiryDate.getD 0
  if rank a ≠ rank b then decide (rank a < rank b)
  else if dval a ≠ dval b then decide (dval a < dval b)
  else decide (a.id ≤ b.id)

/-- Stable insertion into a sorted list (helper for `sortBy`). -/
def insertSorted (le : α → α → Bool) (a : α) : List α → List α
  | [] => [a]
  | b :: bs => if le a b then a :: b :: bs else b :: insertSorted le a bs

/-- A stable sort by a boolean comparison, modelling the SQL `ORDER BY` of
the candidate query.  The keys used with it are total and antisymmetric
(distinct rows have distinct primary keys), so the sorted result is the
unique ordering the database returns. -/
def sortBy (le : α → α → Bool) (l : List α) : List α :=
  l.foldr (insertSorted le) []

/-- The candidate query of `_allocate_item_with_stack`
(`inventory/services/allocation.py` lines 137-147): batches of the item that
are AVAILABLE, have positive available quantity and are unexpired
(no expiry, or expiry strictly after today), ordered by
`("expiry_date", "pk")`, projected to their ids. -/
def eligibleBatchIds (nullsLast : Bool) (today : Int) (st : State)
    (itemId : Nat) : List Nat :=
  let elig := st.batches.filter (fun b =>
    b.itemId == itemId &&
    b.status == BatchStatus.available &&
    decide (0 < b.availableQty) &&
    (match b.expiryDate with
     | none => true
     | some d => decide (today < d)))
  (sortBy (batchKeyLe nullsLast) elig).map (fun b => b.id)

/-- Per-line outcome strings of `_allocate_item_with_stack`:
`"fully_allocated"`, `"partially_allocated"`, `"allocation_failed"`. -/
inductive LineStatus where
  | fullyAllocated
  | partiallyAllocated
  | allocationFailed
deriving DecidableEq, Repr

/-- The per-line result dict returned by `_allocate_item_with_stack`.
`qtyRemaining` is `none` on the early-return branch, whose dict has no
`"qty_remaining"` key.  `allocations` lists `(batch_lot, qty)` pairs in the
order the allocations were made. -/
structure LineResult where
  orderItemId : Nat
  itemSku : String
  status : LineStatus
  qtyRequested : Int
  qtyAllocated : Int
  qtyRemaining : Option Int
  allocations : List (String × Int)
deriving DecidableEq, Repr

/-- The exception a candidate-loop body can raise: the `get(pk=batch_id)`
re-fetch raising `Batch.DoesNotExist` (unreachable for ids taken from the
candidate query, since nothing deletes batches in between). -/
inductive AllocExc where
  | doesNotExist
deriving DecidableEq, Repr

/-- One successful candidate iteration of the loop in
`_allocate_item_with_stack` (lines 163-194): decrement the locked batch row
by `q` with an F-expression, create the `Allocation` row, append the RESERVE
`TransactionLog` entry.  `b` is the current row of the batch and `q` the
quantity taken from it. -/
def allocCandidate (st : State) (oi : OrderItem) (b : Batch) (q : Int) :
    State :=
  let st1 := bumpBatchQty st b.id (-q)
  let a : Allocation :=
    { id := st.nextAllocationId, orderItemId := oi.id, batchId := b.id,
      qtyAllocated := q }
  { st1 with
      allocations := a :: st1.allocations,
      txnLogs := { ttype := "reserve", qty := q, batchId := some b.id }
        :: st1.txnLogs,
      nextAllocationId := st.nextAllocationId + 1 }

/-- The candidate loop of `_allocate_item_with_stack` (lines 157-194):
`while (qty_remaining > 0) and (not stack.is_empty())`, popping one batch id
per iteration, skipping batches that are no longer available, and otherwise
allocating `min(batch.available_qty, qty_remaining)`.  `fuel` bounds the
number of iterations; the callers pass the stack size, which the loop can
never exceed since every iteration pops once. -/
def allocLoop (oi : OrderItem) (fuel : Nat) (s : ManualStack Nat)
    (qtyRem : Int) (st : State) (made : List (String × Int)) :
    Except AllocExc (List (String × Int) × Int × State) :=
  match fuel with
  | 0 => Except.ok (made, qtyRem, st)
  | fuel + 1 =>
      if qtyRem ≤ 0 then Except.ok (made, qtyRem, st)
      else
        match s.pop with
        | none => Except.ok (made, qtyRem, st)
        | some (bid, s') =>
            match findBatch st bid with
            | none => Except.error AllocExc.doesNotExist
            | some b =>
                if b.availableQty ≤ 0 ∨ b.status ≠ BatchStatus.available then
                  allocLoop oi fuel s' qtyRem st made
                else
                  let q := min b.availableQty qtyRem
                  allocLoop oi fuel s' (qtyRem - q) (allocCandidate st oi b q)
                    (made ++ [(b.lotNo, q)])

/-- The same loop iterating the candidate list forward instead of popping a
stack.  This is the formulation the spec recommends
("simply iterating the ascending-sorted candidate list forward"); it is the
spec-side definition of the refinement claim and is proved equal to the
stack-based loop. -/
def allocLoopList (oi : OrderItem) (bids : List Nat) (qtyRem : Int)
    (st : State) (made : List (String × Int)) :
    Except AllocExc (List (String × Int) × Int × State) :=
  match bids with
  | [] => Except.ok (made, qtyRem, st)
  | bid :: rest =>
      if qtyRem ≤ 0 then Except.ok (made, qtyRem, st)
      else
        match findBatch st bid with
        | none => Except.error AllocExc.doesNotExist
        | some b =>
            if b.availableQty ≤ 0 ∨ b.status ≠ BatchStatus.available then
              allocLoopList oi rest qtyRem st made
            else
              let q := min b.availableQty qtyRem
              allocLoopList oi rest (qtyRem - q) (allocCandidate st oi b q)
                (made ++ [(b.lotNo, q)])

/-- `OrderItem.objects.filter(pk=i).update(qty_allocated=F(...) + d)`. -/
def bumpOrderItemQty (st : State) (oiid : Nat) (d : Int) : State :=
  { st with orderItems := st.orderItems.map (fun oi =>
      if oi.id == oiid then { oi with qtyAllocated := oi.qtyAllocated + d }
      else oi) }

/-- `_allocate_item_with_stack(order_item, user)`
(`inventory/services/allocation.py` lines 114-217).  The eligible batches
are queried ascending, pushed onto a `ManualStack` in reverse so that `pop`
yields the earliest-sorting batch first, and consumed by the loop; then the
line's `qty_allocated` is incremented by the total just allocated and the
result dict is built from the refreshed row. -/
def allocateItemWithStack (nullsLast : Bool) (today : Int) (st : State)
    (oi : OrderItem) : Except AllocExc (LineResult × State) :=
  let sku := (findItem st oi.itemId).map (fun i => i.sku) |>.getD ""
  let qtyNeeded := oi.qtyRequested - oi.qtyAllocated
  if qtyNeeded ≤ 0 then
    Except.ok
      ({ orderItemId := oi.id, itemSku := sku,
         status := LineStatus.fullyAllocated,
         qtyRequested := oi.qtyRequested, qtyAllocated := oi.qtyAllocated,
         qtyRemaining := none, allocations := [] }, st)
  else
    let elig := eligibleBatchIds nullsLast today st oi.itemId
    let stack := ManualStack.pushList
      (ManualStack.mkStack (max 16 elig.length)) elig.reverse
    match allocLoop oi elig.length stack qtyNeeded st [] with
    | Except.error e => Except.error e
    | Except.ok (made, qtyRem, st1) =>
        let total := qtyNeeded - qtyRem
        let st2 := bumpOrderItemQty st1 oi.id total
        let refreshed :=
          (findOrderItem st2 oi.id).map (fun r => r.qtyAllocated)
            |>.getD (oi.qtyAllocated + total)
        let status :=
          if qtyRem ≤ 0 then LineStatus.fullyAllocated
          else if 0 < total then LineStatus.partiallyAllocated
          else LineStatus.allocationFailed
        Except.ok
          ({ orderItemId := oi.id, itemSku := sku, status := status,
             qtyRequested := oi.qtyRequested, qtyAllocated := refreshed,
             qtyRemaining := some qtyRem, allocations := made }, st2)

/-- The forward-iteration formulation of `_allocate_item_with_stack`,
following the spec's words: obtain the ascending-sorted candidate list and
walk it from the front, with no intermediate stack.  Proved equal to
`allocateItemWithStack`. -/
def allocateItemFefoForward (nullsLast : Bool) (today : Int) (st : State)
    (oi : OrderItem) : Except AllocExc (LineResult × State) :=
  let sku := (findItem st oi.itemId).map (fun i => i.sku) |>.getD ""
  let qtyNeeded := oi.qtyRequested - oi.qtyAllocated
  if qtyNeeded ≤ 0 then
    Except.ok
      ({ orderItemId := oi.id, itemSku := sku,
         status := LineStatus.fullyAllocated,
         qtyRequested := oi.qtyRequested, qtyAllocated := oi.qtyAllocated,
         qtyRemaining := none, allocations := [] }, st)
  else
    let elig := eligibleBatchIds nullsLast today st oi.itemId
    match allocLoopList oi elig qtyNeeded st [] with
    | Except.error e => Except.error e
    | Except.ok (made, qtyRem, st1) =>
        let total := qtyNeeded - qtyRem
        let st2 := bumpOrderItemQty st1 oi.id total
        let refreshed :=
          (findOrderItem st2 oi.id).map (fun r => r.qtyAllocated)
            |>.getD (oi.qtyAllocated + total)
        let status :=
          if qtyRem ≤ 0 then LineStatus.fullyAllocated
          else if 0 < total then LineStatus.partiallyAllocated
          else LineStatus.allocationFailed
        Except.ok
          ({ orderItemId := oi.id, itemSku := sku, status := status,
             qtyRequested := oi.qtyRequested, qtyAllocated := refreshed,
             qtyRemaining := some qtyRem, allocations := made }, st2)

/-- The `while not task_q.is_empty()` loop of `allocate_order`: the manual
FIFO queue is filled from the order's line items and drained in the same
order, so the loop processes the lines in list order, threading the state
and collecting the per-line results. -/
def processLines (nullsLast : Bool) (today : Int) (st : State)
    (items : List OrderItem) :
    Except AllocExc (List LineResult × State) :=
  match items with
  | [] => Except.ok ([], st)
  | oi :: rest =>
      match allocateItemWithStack nullsLast today st oi with
      | Except.error e => Except.error e
      | Except.ok (r, st') =>
          match processLines nullsLast today st' rest with
          | Except.error e => Except.error e
          | Except.ok (rs, st'') => Except.ok (r :: rs, st'')

/-- Errors raised by `allocate_order` (`inventory/services/allocation.py`):
`OrderNotFoundError`, the two structural `AllocationError`s, the
total-failure `AllocationError`, and a propagated loop exception. -/
inductive AllocError where
  | orderNotFound
  | cancelledOrder
  | noItems
  | insufficientAll
  | lineExc (e : AllocExc)
deriving DecidableEq, Repr

/-- Number of lines with the given status in a result list. -/
def countStatus (rs : List LineResult) (s : LineStatus) : Nat :=
  (rs.filter (fun r => r.status == s)).length

/-- The report dict returned by `allocate_order`. -/
structure OrderReport where
  orderId : Nat
  orderNo : String
  status : OrderStatus
  itemsAllocated : Nat
  itemsPartial : Nat
  itemsFailed : Nat
  details : List LineResult
deriving DecidableEq, Repr

/-- `allocate_order(order_id, user)` (`inventory/services/allocation.py`
lines 38-111).  The structural checks run before the transaction; the line
loop and the order-level outcome run inside one `transaction.atomic()`
block, so raising `AllocationError` in the total-failure branch rolls the
whole transaction back — including the error-level `Notification` row
created just before the raise, which therefore never persists — and the
function returns the entry state unchanged.  In the mixed branch the warning
notification is created and the block commits. -/
def allocateOrder (nullsLast : Bool) (today : Int) (st : State)
    (orderId : Nat) : Except AllocError OrderReport × State :=
  match findOrder st orderId with
  | none => (Except.error AllocError.orderNotFound, st)
  | some o =>
      if o.status = OrderStatus.cancelled then
        (Except.error AllocError.cancelledOrder, st)
      else
        let items := st.orderItems.filter (fun oi => oi.orderId == orderId)
        if items.isEmpty then (Except.error AllocError.noItems, st)
        else
          match processLines nullsLast today st items with
          | Except.error e => (Except.error (AllocError.lineExc e), st)
          | Except.ok (results, st1) =>
              let nFull := countStatus results LineStatus.fullyAllocated
              let nPart := countStatus results LineStatus.partiallyAllocated
              let nFail := countStatus results LineStatus.allocationFailed
              if nFull = items.length then
                let st2 := setOrderStatus st1 orderId OrderStatus.allocated
                (Except.ok
                  { orderId := o.id, orderNo := o.orderNo,
                    status := OrderStatus.allocated,
                    itemsAllocated := nFull, itemsPartial := nPart,
                    itemsFailed := nFail, details := results }, st2)
              else if nFail = items.length then
                (Except.error AllocError.insufficientAll, st)
              else
                let st2 := { st1 with notifications :=
                  { level := NotifLevel.warning } :: st1.notifications }
                (Except.ok
                  { orderId := o.id, orderNo := o.orderNo, status := o.status,
                    itemsAllocated := nFull, itemsPartial := nPart,
                    itemsFailed := nFail, details := results }, st2)

/-- One iteration of the inner loop of `DeallocateOrderView.post`
(`inventory/views.py` lines 462-533): add the allocation's quantity back to
its batch, append a DEALLOCATE `TransactionLog` entry, delete the
`Allocation` row. -/
def releaseAllocation (st : State) (a : Allocation) : State :=
  let st1 := bumpBatchQty st a.batchId a.qtyAllocated
  { st1 with
      txnLogs :=
        { ttype := "deallocate", qty := a.qtyAllocated,
          batchId := some a.batchId } :: st1.txnLogs,
      allocations := st1.allocations.filter (fun x => !(x.id == a.id)) }

/-- The per-line body of `DeallocateOrderView.post`: release every
allocation currently attached to the order item, then zero the item's
`qty_allocated`. -/
def deallocLine (st : State) (oi : OrderItem) : State :=
  let toRelease := st.allocations.filter (fun a => a.orderItemId == oi.id)
  let st1 := toRelease.foldl releaseAllocation st
  { st1 with orderItems := st1.orderItems.map (fun x =>
      if x.id == oi.id then { x with qtyAllocated := 0 } else x) }

/-- `DeallocateOrderView.post` (`inventory/views.py` lines 462-533): under
one transaction, release every allocation of every line of the order, zero
each line's `qty_allocated`, reset the order status to NEW and persist an
info-level notification.  A missing order is a 404 before the transaction
and leaves the state unchanged. -/
def deallocateOrder (st : State) (orderId : Nat) :
    Except Unit Unit × State :=
  match findOrder st orderId with
  | none => (Except.error (), st)
  | some _ =>
      let items := st.orderItems.filter (fun oi => oi.orderId == orderId)
      let st1 := items.foldl deallocLine st
      let st2 := setOrderStatus st1 orderId OrderStatus.new
      (Except.ok (),
       { st2 with notifications :=
          { level := NotifLevel.info } :: st2.notifications })

/-- The Python exception that `perform_undo` / `perform_redo` actually hit:
the records popped off `UndoStack` / `RedoStack` carry only the fields
`op_name`, `metadata`, `created_at`, while the services read
`undo_op.operation_type` (and later `.data`, `.user`, `.description`), which
does not exist on those models. -/
inductive PyExc where
  | attributeError
deriving DecidableEq, Repr

/-- The loop of `perform_undo(user, count)`
(`inventory/services/undo_redo.py` lines 272-322).  Each iteration calls
`UndoStack.pop()` (`inventory/models.py` lines 505-515), which deletes the
top row inside its own committed transaction and returns a copy; an empty
stack appends "No more operations to undo" and breaks.  The very next line,
`handler = UNDO_HANDLERS.get(undo_op.operation_type)`, runs before the
`try:` block and raises `AttributeError`, because `UndoStack` rows define
`op_name`, not `operation_type` (see `stackRecHasAttr`).  The exception
propagates out of `perform_undo`, so no handler is ever dispatched, nothing
is pushed to the redo stack, the original record is not re-pushed, and the
popped record is lost (its deletion already committed; the project sets no
`ATOMIC_REQUESTS`).  Everything after the attribute access is unreachable
and therefore not modelled. -/
def performUndoLoop (fuel : Nat) (st : State) (acc : List String) :
    Except PyExc (List String) × State :=
  match fuel with
  | 0 => (Except.ok acc, st)
  | _fuel + 1 =>
      match st.undoStack with
      | [] => (Except.ok (acc ++ ["No more operations to undo"]), st)
      | _rec :: rest => (Except.error PyExc.attributeError,
          { st with undoStack := rest })

/-- `perform_undo(user, count)` (`inventory/services/undo_redo.py`). -/
def performUndo (st : State) (count : Nat) :
    Except PyExc (List String) × State :=
  performUndoLoop count st []

/-- The loop of `perform_redo(user, count)`
(`inventory/services/undo_redo.py` lines 325-375): symmetric to
`performUndoLoop`, and broken in the same way — `RedoStack` rows also define
only `op_name`/`metadata`/`created_at`, so `redo_op.operation_type` raises
`AttributeError` right after the pop. -/
def performRedoLoop (fuel : Nat) (st : State) (acc : List String) :
    Except PyExc (List String) × State :=
  match fuel with
  | 0 => (Except.ok acc, st)
  | _fuel + 1 =>
      match st.redoStack with
      | [] => (Except.ok (acc ++ ["No more operations to redo"]), st)
      | _rec :: rest => (Except.error PyExc.attributeError,
          { st with redoStack := rest })

/-- `perform_redo(user, count)` (`inventory/services/undo_redo.py`). -/
def performRedo (st : State) (count : Nat) :
    Except PyExc (List String) × State :=
  performRedoLoop count st []

/-- The engine operations quantified over by the ledger-invariant claim:
a bare `Batch.reserve`, a full `allocate_order`, a deallocation of an order,
and the undo/redo entry points. -/
inductive EngineOp where
  | reserve (batchId : Nat) (qty : Int)
  | allocate (nullsLast : Bool) (today : Int) (orderId : Nat)
  | deallocate (orderId : Nat)
  | undo (count : Nat)
  | redo (count : Nat)
deriving DecidableEq, Repr

/-- Whether an operation is a bare `Batch.reserve`. -/
def EngineOp.isReserve : EngineOp → Bool
  | EngineOp.reserve _ _ => true
  | _ => false

/-- Run one engine operation; each operation already encodes its own
transactional rollback, so the resulting state is always the committed
database state. -/
def applyOp (st : State) (op : EngineOp) : State :=
  match op with
  | EngineOp.reserve bid q => (reserveBatch st bid q).2
  | EngineOp.allocate nl t oid => (allocateOrder nl t st oid).2
  | EngineOp.deallocate oid => (deallocateOrder st oid).2
  | EngineOp.undo c => (performUndo st c).2
  | EngineOp.redo c => (performRedo st c).2

/-- Run a sequence of engine operations. -/
def applyOps (st : State) (ops : List EngineOp) : State :=
  ops.foldl applyOp st

/-- The total quantity of all `Allocation` rows referencing a batch. -/
def sumAllocFor (st : State) (bid : Nat) : Int :=
  ((st.allocations.filter (fun a => a.batchId == bid)).map
    (fun a => a.qtyAllocated)).sum

/-- Structural well-formedness of a database state: primary keys of batches
and allocations are unique, allocation ids stay below the id counter, and
allocation quantities are nonnegative (the source creates them only with
`qty > 0` and the model column is checked `> 0`). -/
def Wf (st : State) : Prop :=
  (st.batches.map (fun b => b.id)).Nodup ∧
  (st.allocations.map (fun a => a.id)).Nodup ∧
  (∀ a ∈ st.allocations, a.id < st.nextAllocationId) ∧
  (∀ a ∈ st.allocations, 0 ≤ a.qtyAllocated)

/-- The ledger invariant, inequality form: every batch has nonnegative
availability, and the allocations against it account for at most the
quantity reserved out of it. -/
def InvLe (st : State) : Prop :=
  ∀ b ∈ st.batches,
    0 ≤ b.availableQty ∧ sumAllocFor st b.id ≤ b.receivedQty - b.availableQty

/-- The ledger invariant, equality form as the claim states it: the
allocations against a batch account exactly for the quantity reserved out of
it. -/
def InvEq (st : State) : Prop :=
  ∀ b ∈ st.batches,
    0 ≤ b.availableQty ∧ sumAllocFor st b.id = b.receivedQty - b.availableQty

/-- The three-batch scenario of the spec's FEFO test (and of
`inventory/tests/test_fefo_allocation.py`): batches of 50 units expiring on
day 5, 100 units expiring on day 30 and 75 units with no expiry, and one
order line requesting 120 units; `today` is day 0. -/
def stFefo : State :=
  { items := [{ id := 1, sku := "TEST-001" }]
    batches :=
      [ { id := 1, itemId := 1, lotNo := "LOT-A", receivedQty := 50,
          availableQty := 50, expiryDate := some 5,
          status := BatchStatus.available },
        { id := 2, itemId := 1, lotNo := "LOT-B", receivedQty := 100,
          availableQty := 100, expiryDate := some 30,
          status := BatchStatus.available },
        { id := 3, itemId := 1, lotNo := "LOT-C", receivedQty := 75,
          availableQty := 75, expiryDate := none,
          status := BatchStatus.available } ]
    orders := [{ id := 1, orderNo := "ORD-001", status := OrderStatus.new }]
    orderItems :=
      [{ id := 1, orderId := 1, itemId := 1, qtyRequested := 120,
         qtyAllocated := 0 }]
    allocations := []
    notifications := []
    txnLogs := []
    undoStack := []
    redoStack := []
    nextAllocationId := 1 }

/-- The same stock as `stFefo` with the line requesting 300 units — more
than the 225 units available in total. -/
def stFefo300 : State :=
  { stFefo with orderItems :=
      [{ id := 1, orderId := 1, itemId := 1, qtyRequested := 300,
         qtyAllocated := 0 }] }

/-- An order with one line and no stock at all: the total-failure case of
`allocate_order`. -/
def stNoStock : State :=
  { items := [{ id := 1, sku := "TEST-001" }]
    batches := []
    orders := [{ id := 1, orderNo := "ORD-002", status := OrderStatus.new }]
    orderItems :=
      [{ id := 1, orderId := 1, itemId := 1, qtyRequested := 5,
         qtyAllocated := 0 }]
    allocations := []
    notifications := []
    txnLogs := []
    undoStack := []
    redoStack := []
    nextAllocationId := 1 }

/-- A fresh batch of 10 units with no allocations: the input on which a bare
`Batch.reserve` breaks the equality form of the ledger invariant. -/
def stReserveDemo : State :=
  { items := [{ id := 1, sku := "SKU-1" }]
    batches :=
      [{ id := 1, itemId := 1, lotNo := "L1", receivedQty := 10,
         availableQty := 10, expiryDate := none,
         status := BatchStatus.available }]
    orders := []
    orderItems := []
    allocations := []
    notifications := []
    txnLogs := []
    undoStack := []
    redoStack := []
    nextAllocationId := 1 }

/-- A database state right after a successful allocation of 50 units from
one batch, with the corresponding `"allocation"` record sitting on top of
the undo stack (the shape `perform_undo` is supposed to reverse). -/
def stUndoAlloc : State :=
  { items := [{ id := 1, sku := "SKU-1" }]
    batches :=
      [{ id := 1, itemId := 1, lotNo := "L1", receivedQty := 50,
         availableQty := 0, expiryDate := none,
         status := BatchStatus.available }]
    orders := [{ id := 1, orderNo := "ORD-003",
                 status := OrderStatus.allocated }]
    orderItems :=
      [{ id := 1, orderId := 1, itemId := 1, qtyRequested := 50,
         qtyAllocated := 50 }]
    allocations :=
      [{ id := 1, orderItemId := 1, batchId := 1, qtyAllocated := 50 }]
    notifications := []
    txnLogs := [{ ttype := "reserve", qty := 50, batchId := some 1 }]
    undoStack := [{ opName := "allocation", metadata := [("order_id", "1")] }]
    redoStack := []
    nextAllocationId := 2 }

/-- A database state with a received batch that has already been allocated
against, and the corresponding `"receive"` record on top of the undo stack —
the case the spec says `perform_undo` must refuse with `UndoRedoError`
while re-pushing the record. -/
def stUndoReceive : State :=
  { items := [{ id := 1, sku := "SKU-1" }]
    batches :=
      [{ id := 1, itemId := 1, lotNo := "L1", receivedQty := 50,
         availableQty := 30, expiryDate := none,
         status := BatchStatus.available }]
    orders := [{ id := 1, orderNo := "ORD-004", status := OrderStatus.new }]
    orderItems :=
      [{ id := 1, orderId := 1, itemId := 1, qtyRequested := 20,
         qtyAllocated := 20 }]
    allocations :=
      [{ id := 1, orderItemId := 1, batchId := 1, qtyAllocated := 20 }]
    notifications := []
    txnLogs := [{ ttype := "receipt", qty := 50, batchId := some 1 }]
    undoStack := [{ opName := "receive", metadata := [("batch_ids", "[1]")] }]
    redoStack := []
    nextAllocationId := 2 }

/-- C5: for every batch row and every qty > 0, `Batch.reserve` fails with
the invalid-state error when the batch status is not AVAILABLE, fails with
the insufficient-stock error when `available_qty < qty`, and otherwise
atomically decrements `available_qty` by qty and returns the new available
quantity; on either failure the database state is unchanged. -/
theorem reserve_contract (st : State) (bid : Nat) (qty : Int) (b : Batch)
    (hb : findBatch st bid = some b) (hq : 0 < qty) :
    (b.status ≠ BatchStatus.available →
        reserveBatch st bid qty =
          (Except.error ReserveError.invalidState, st)) ∧
    (b.status = BatchStatus.available → b.availableQty < qty →
        reserveBatch st bid qty =
          (Except.error ReserveError.insufficientStock, st)) ∧
    (b.status = BatchStatus.available → qty ≤ b.availableQty →
        reserveBatch st bid qty =
          (Except.ok (b.availableQty - qty), bumpBatchQty st bid (-qty))) := by
  have hq' : ¬ qty ≤ 0 := not_le.mpr hq
  refine ⟨fun hs => ?_, fun hs hlt => ?_, fun hs hle => ?_⟩
  · simp [reserveBatch, hq', hb, hs]
  · simp [reserveBatch, hq', hb, hs, hlt]
  · simp [reserveBatch, hq', hb, hs, not_lt.mpr hle]

/-- Witness for C5: reserving 20 units from the 50-unit AVAILABLE batch of
`stFefo` succeeds and returns 30. -/
theorem reserve_contract_witness :
    reserveBatch stFefo 1 20 =
      (Except.ok ((50 : Int) - 20), bumpBatchQty stFefo 1 (-20)) :=
  (reserve_contract stFefo 1 20
      ⟨1, 1, "LOT-A", 50, 50, some 5, BatchStatus.available⟩
      rfl (by decide)).2.2 rfl (by decide)

/-- C10: for every batch id and every qty ≤ 0, `Batch.reserve` raises
`ValueError("Reserve quantity must be > 0")` before entering the transaction
or acquiring the row lock, and the database state is unchanged. -/
theorem reserve_nonpositive_rejected (st : State) (bid : Nat) (qty : Int)
    (h : qty ≤ 0) :
    reserveBatch st bid qty = (Except.error ReserveError.badQty, st) := by
  simp [reserveBatch, h]

/-- Witness for C10: a zero-quantity reserve on `stFefo` is rejected with
the state unchanged. -/
theorem reserve_nonpositive_rejected_witness :
    reserveBatch stFefo 1 0 = (Except.error ReserveError.badQty, stFefo) :=
  reserve_nonpositive_rejected stFefo 1 0 (by decide)

/-- C8: saving a fresh `TransactionLog` instance succeeds and appends it to
the store with a new primary key, while calling `save()` on any instance
that already has a primary key — whatever its field values — raises the
immutability `ValueError` and leaves the store unchanged. -/
theorem transactionLog_immutable (log : TransactionLog)
    (store : List TransactionLog) (nextPk : Nat) :
    (∀ k, log.pk = some k →
        TransactionLog.save log store nextPk =
          (Except.error
            "TransactionLog records are immutable and cannot be updated",
           store)) ∧
    (log.pk = none →
        TransactionLog.save log store nextPk =
          (Except.ok ({ log with pk := some nextPk }, nextPk + 1),
           store ++ [{ log with pk := some nextPk }])) := by
  constructor
  · intro k hk
    simp [TransactionLog.save, hk]
  · intro hk
    simp [TransactionLog.save, hk]

/-- Witness for C8: re-saving a stored record (pk = 7) with changed fields
fails and leaves the store as it was. -/
theorem transactionLog_immutable_witness :
    TransactionLog.save
      { pk := some 7, ttype := "adjust", qty := 999, batchId := none } [] 8 =
      (Except.error
        "TransactionLog records are immutable and cannot be updated", []) :=
  (transactionLog_immutable
    { pk := some 7, ttype := "adjust", qty := 999, batchId := none } [] 8).1
    7 rfl

/-- C2 (evaluation at the claimed input): allocating the 120-unit line of
`stFefo`.  Under the project's default sqlite3 backend (NULL expiry sorts
first in ascending order) the engine consumes the no-expiry batch first:
75 from LOT-C then 45 from LOT-A, leaving 5/100/0 — not the claimed
50 from LOT-A and 70 from LOT-B.  Under PostgreSQL (NULLs last) the claimed
split 50/70 with final quantities 0/30/75 does hold. -/
theorem fefo_split_depends_on_null_ordering :
    (Except.map (fun r => r.details.map (fun d => d.allocations))
        (allocateOrder false 0 stFefo 1).1 =
      Except.ok [[("LOT-C", (75 : Int)), ("LOT-A", 45)]]) ∧
    ((allocateOrder false 0 stFefo 1).2.batches.map
        (fun b => (b.lotNo, b.availableQty)) =
      [("LOT-A", (5 : Int)), ("LOT-B", 100), ("LOT-C", 0)]) ∧
    (Except.map (fun r => r.details.map (fun d => d.allocations))
        (allocateOrder true 0 stFefo 1).1 =
      Except.ok [[("LOT-A", (50 : Int)), ("LOT-B", 70)]]) ∧
    ((allocateOrder true 0 stFefo 1).2.batches.map
        (fun b => (b.lotNo, b.availableQty)) =
      [("LOT-A", (0 : Int)), ("LOT-B", 30), ("LOT-C", 75)]) :=
  ⟨rfl, rfl, rfl, rfl⟩

/-- C3 (evaluation at the claimed input): allocating the 300-unit line of
`stFefo300` (225 units available in total) does not fail with zero
allocations — the engine allocates greedily, creates three `Allocation`
rows totalling 225, drains every batch to 0, reports the line
`partially_allocated`, keeps the allocations (mixed-outcome branch) and
persists a warning-level notification.  This holds under either NULL
ordering; only the order of the three splits differs. -/
theorem insufficient_stock_partially_allocates :
    (Except.map (fun r => r.details.map (fun d => (d.status, d.allocations)))
        (allocateOrder false 0 stFefo300 1).1 =
      Except.ok [(LineStatus.partiallyAllocated,
        [("LOT-C", (75 : Int)), ("LOT-A", 50), ("LOT-B", 100)])]) ∧
    ((allocateOrder false 0 stFefo300 1).2.batches.map
        (fun b => b.availableQty) = [0, 0, 0]) ∧
    ((allocateOrder false 0 stFefo300 1).2.allocations.length = 3) ∧
    ((allocateOrder false 0 stFefo300 1).2.notifications =
      [{ level := NotifLevel.warning }]) ∧
    (Except.map (fun r => r.details.map (fun d => (d.status, d.allocations)))
        (allocateOrder true 0 stFefo300 1).1 =
      Except.ok [(LineStatus.partiallyAllocated,
        [("LOT-A", (50 : Int)), ("LOT-B", 100), ("LOT-C", 75)])]) :=
  ⟨rfl, rfl, rfl, rfl, rfl⟩

/-- C6 (evaluation at the claimed input): `perform_undo` on the recorded
allocation operation of `stUndoAlloc` does not restore anything.  The pop
deletes the record, then the dispatch reads `undo_op.operation_type` — a
field `UndoStack` rows do not have — and raises `AttributeError`: batch
quantities and `Allocation` rows are untouched, nothing reaches the redo
stack, and the popped record is gone. -/
theorem perform_undo_allocation_crashes :
    performUndo stUndoAlloc 1 =
      (Except.error PyExc.attributeError,
        { stUndoAlloc with undoStack := [] }) ∧
    (performUndo stUndoAlloc 1).2.batches = stUndoAlloc.batches ∧
    (performUndo stUndoAlloc 1).2.allocations = stUndoAlloc.allocations ∧
    (performUndo stUndoAlloc 1).2.redoStack = [] :=
  ⟨rfl, rfl, rfl, rfl⟩

/-- C7 (evaluation at the claimed input): `perform_undo` on a `"receive"`
record whose batch has an allocation never reaches `undo_receive`'s
`UndoRedoError` refusal: it crashes with `AttributeError` at the dispatch,
the batch indeed survives, but the record is not re-pushed — the undo stack
ends up empty instead of unchanged. -/
theorem perform_undo_receive_crashes :
    performUndo stUndoReceive 1 =
      (Except.error PyExc.attributeError,
        { stUndoReceive with undoStack := [] }) ∧
    (performUndo stUndoReceive 1).2.undoStack = [] ∧
    (performUndo stUndoReceive 1).2.batches = stUndoReceive.batches :=
  ⟨rfl, rfl, rfl⟩

/-- C1 (counterexample): on a fresh 10-unit batch with no allocations the
equality form of the ledger invariant holds, and a single bare
`Batch.reserve` of 3 units — an operation in the claim's list — breaks it:
the batch drops to 7 available but no `Allocation` row exists, so
`received_qty − available_qty = 3 ≠ 0 = Σ qty_allocated`. -/
theorem ledger_equality_fails_on_bare_reserve :
    InvEq stReserveDemo ∧
    ¬ InvEq (applyOps stReserveDemo [EngineOp.reserve 1 3]) := by
  constructor
  · unfold InvEq
    decide
  · unfold InvEq
    decide

/-- C4 (counterexample): allocating `stNoStock` (one line, no stock) takes
the total-failure branch: `AllocationError` is raised and the transaction
rolls back to the entry state — including the error-level `Notification`
created just before the raise, so no notification is persisted. -/
theorem total_failure_notification_not_persisted :
    (allocateOrder false 0 stNoStock 1).1 =
      Except.error AllocError.insufficientAll ∧
    (allocateOrder false 0 stNoStock 1).2 = stNoStock ∧
    (allocateOrder false 0 stNoStock 1).2.notifications = [] :=
  ⟨rfl, rfl, rfl⟩

/-- Setting the slot just past a prefix writes into the suffix. -/
theorem list_set_append_length (xs ys : List α) (a : α) :
    (xs ++ ys).set xs.length a = xs ++ ys.set 0 a := by
  induction xs with
  | nil => simp
  | cons x xs ih => simp [ih]

/-- Reading the slot just past a prefix reads from the suffix. -/
theorem list_getq_append_length (xs ys : List α) :
    (xs ++ ys).get? xs.length = ys.get? 0 := by
  induction xs with
  | nil => simp
  | cons x xs ih => simpa using ih

/-- `push` on a full backing array grows it first. -/
theorem ManualStack.push_eq_full (s : ManualStack α) (v : α)
    (h : s.top = s.data.length) :
    s.push v = { data := s.grow.data.set s.top (some v), top := s.top + 1 } := by
  unfold ManualStack.push
  rw [if_pos h]
  rfl

/-- `push` on a backing array with free slots writes in place. -/
theorem ManualStack.push_eq_notfull (s : ManualStack α) (v : α)
    (h : s.top ≠ s.data.length) :
    s.push v = { data := s.data.set s.top (some v), top := s.top + 1 } := by
  unfold ManualStack.push
  rw [if_neg h]

/-- A freshly constructed `ManualStack` represents the empty list. -/
theorem ManualStack.rep_mkStack (cap : Nat) :
    (ManualStack.mkStack (α := α) cap).Rep [] :=
  ⟨if cap = 0 then 16 else cap, by simp [ManualStack.mkStack], rfl⟩

/-- `push` appends the value on top of the represented contents. -/
theorem ManualStack.rep_push {s : ManualStack α} {l : List α} (h : s.Rep l)
    (v : α) : (s.push v).Rep (l ++ [v]) := by
  obtain ⟨pad, hdata, htop⟩ := h
  have hlen : s.data.length = l.length + pad := by simp [hdata]
  cases pad with
  | zero =>
      have hfull : s.top = s.data.length := by omega
      have hdata0 : s.data = l.map some := by simpa using hdata
      have hk : ∃ k, max (2 * s.data.length) 16 - s.data.length = k + 1 := by
        have : s.data.length + 1 ≤ max (2 * s.data.length) 16 := by
          rcases Nat.eq_zero_or_pos s.data.length with h0 | h0
          · simp [h0]
          · calc s.data.length + 1 ≤ 2 * s.data.length := by omega
              _ ≤ max (2 * s.data.length) 16 := Nat.le_max_left _ _
        exact ⟨max (2 * s.data.length) 16 - s.data.length - 1, by omega⟩
      obtain ⟨k, hk⟩ := hk
      have hgrow : s.grow.data =
          l.map some ++ List.replicate (k + 1) (none : Option α) := by
        simp only [ManualStack.grow, hk]
        rw [hdata0]
      rw [ManualStack.push_eq_full s v hfull]
      refine ⟨k, ?_, by simp [htop]⟩
      rw [hgrow, htop]
      have hml : (l.map some).length = l.length := by simp
      calc ((l.map some) ++ List.replicate (k + 1) (none : Option α)).set
              l.length (some v)
          = (l.map some) ++ (List.replicate (k + 1) (none : Option α)).set 0
              (some v) := by
            rw [← hml, list_set_append_length]
        _ = (l.map some) ++ (some v :: List.replicate k none) := by
            simp [List.replicate_succ]
        _ = ((l ++ [v]).map some) ++ List.replicate k none := by simp
  | succ p =>
      have hne : s.top ≠ s.data.length := by omega
      rw [ManualStack.push_eq_notfull s v hne]
      refine ⟨p, ?_, by simp [htop]⟩
      rw [hdata, htop]
      have hml : (l.map some).length = l.length := by simp
      calc ((l.map some) ++ List.replicate (p + 1) (none : Option α)).set
              l.length (some v)
          = (l.map some) ++ (List.replicate (p + 1) (none : Option α)).set 0
              (some v) := by
            rw [← hml, list_set_append_length]
        _ = (l.map some) ++ (some v :: List.replicate p none) := by
            simp [List.replicate_succ]
        _ = ((l ++ [v]).map some) ++ List.replicate p none := by simp

/-- `pushList` appends the pushed values in order. -/
theorem ManualStack.rep_pushList {s : ManualStack α} {l : List α}
    (h : s.Rep l) (m : List α) : (s.pushList m).Rep (l ++ m) := by
  induction m generalizing s l with
  | nil => simpa [ManualStack.pushList] using h
  | cons x m ih =>
      have := ih (ManualStack.rep_push h x)
      simpa [ManualStack.pushList, List.foldl_cons] using this

/-- `pop` on an empty stack fails. -/
theorem ManualStack.rep_pop_nil {s : ManualStack α} (h : s.Rep []) :
    s.pop = none := by
  obtain ⟨pad, hdata, htop⟩ := h
  simp [ManualStack.pop, htop]

/-- `pop` on a nonempty stack returns the top value and represents the rest. -/
theorem ManualStack.rep_pop_concat {s : ManualStack α} {l : List α} {v : α}
    (h : s.Rep (l ++ [v])) :
    ∃ s', s.pop = some (v, s') ∧ s'.Rep l := by
  obtain ⟨pad, hdata, htop⟩ := h
  have htop' : s.top = l.length + 1 := by simpa using htop
  have hdata' : s.data =
      (l.map some) ++ (some v :: List.replicate pad none) := by
    simpa [List.append_assoc] using hdata
  have hml : (l.map some).length = l.length := by simp
  have hget : s.data.get? (s.top - 1) = some (some v) := by
    rw [htop', Nat.add_sub_cancel, hdata', ← hml, list_getq_append_length]
    rfl
  have h0 : ¬ s.top = 0 := by omega
  refine ⟨{ data := s.data.set (s.top - 1) none, top := s.top - 1 }, ?_, ?_⟩
  · unfold ManualStack.pop
    rw [if_neg h0, hget]
  · refine ⟨pad + 1, ?_, by simp [htop']⟩
    rw [htop', Nat.add_sub_cancel, hdata', ← hml, list_set_append_length]
    simp [List.replicate_succ]

/-- Draining a stack with enough fuel returns its contents top-first. -/
theorem ManualStack.drainFuel_of_rep {s : ManualStack α} {l : List α}
    (h : s.Rep l) {fuel : Nat} (hf : l.length ≤ fuel) :
    ManualStack.drainFuel fuel s = l.reverse := by
  induction fuel generalizing s l with
  | zero =>
      have : l = [] := List.length_eq_zero.mp (Nat.le_zero.mp hf)
      subst this
      simp [ManualStack.drainFuel]
  | succ n ih =>
      rcases List.eq_nil_or_concat l with rfl | ⟨l', v, rfl⟩
      · simp [ManualStack.drainFuel, ManualStack.rep_pop_nil h]
      · obtain ⟨s', hpop, hrep⟩ := ManualStack.rep_pop_concat
          (by simpa [List.concat_eq_append] using h)
        have hlen : l'.length ≤ n := by
          have h2 := hf
          simp [List.concat_eq_append] at h2
          omega
        simp [ManualStack.drainFuel, hpop, ih hrep hlen,
          List.concat_eq_append]

/-- The stack-driven candidate loop of `_allocate_item_with_stack` computes
the same thing as walking the drained stack contents forward as a list. -/
theorem allocLoop_eq_allocLoopList (oi : OrderItem) :
    ∀ (fuel : Nat) (s : ManualStack Nat) (q : Int) (st : State)
      (made : List (String × Int)),
      allocLoop oi fuel s q st made =
        allocLoopList oi (ManualStack.drainFuel fuel s) q st made := by
  intro fuel
  induction fuel with
  | zero =>
      intro s q st made
      simp [allocLoop, ManualStack.drainFuel, allocLoopList]
  | succ n ih =>
      intro s q st made
      by_cases hq : q ≤ 0
      · cases hpop : s.pop with
        | none =>
            simp [allocLoop, ManualStack.drainFuel, hpop, allocLoopList, hq]
        | some pr =>
            simp [allocLoop, ManualStack.drainFuel, hpop, allocLoopList, hq]
      · cases hpop : s.pop with
        | none =>
            simp [allocLoop, ManualStack.drainFuel, hpop, allocLoopList, hq]
        | some pr =>
            obtain ⟨bid, s'⟩ := pr
            simp only [allocLoop, ManualStack.drainFuel, hpop, allocLoopList,
              if_neg hq]
            cases hfb : findBatch st bid with
            | none => simp [hfb]
            | some b =>
                simp only [hfb]
                by_cases hskip :
                    b.availableQty ≤ 0 ∨ b.status ≠ BatchStatus.available
                · rw [if_pos hskip, if_pos hskip, ih]
                · rw [if_neg hskip, if_neg hskip, ih]

/-- C9: pushing any list of batch ids in reversed order onto a fresh
`ManualStack` and popping until empty yields exactly the original list in
order; consequently `_allocate_item_with_stack` is extensionally equal to
the forward-iteration formulation that walks the ascending-sorted candidate
list from the front. -/
theorem stack_traversal_equivalence :
    (∀ (cap : Nat) (l : List Nat),
        ManualStack.drainFuel l.length
          (ManualStack.pushList (ManualStack.mkStack cap) l.reverse) = l) ∧
    (∀ (nullsLast : Bool) (today : Int) (st : State) (oi : OrderItem),
        allocateItemWithStack nullsLast today st oi =
          allocateItemFefoForward nullsLast today st oi) := by
  have hdrain : ∀ (cap : Nat) (l : List Nat),
      ManualStack.drainFuel l.length
        (ManualStack.pushList (ManualStack.mkStack cap) l.reverse) = l := by
    intro cap l
    have hrep : (ManualStack.pushList (ManualStack.mkStack (α := Nat) cap)
        l.reverse).Rep ([] ++ l.reverse) :=
      ManualStack.rep_pushList (ManualStack.rep_mkStack cap) l.reverse
    have hlen : ([] ++ l.reverse : List Nat).length ≤ l.length := by simp
    have := ManualStack.drainFuel_of_rep hrep hlen
    simpa using this
  refine ⟨hdrain, ?_⟩
  intro nullsLast today st oi
  unfold allocateItemWithStack allocateItemFefoForward
  by_cases h : oi.qtyRequested - oi.qtyAllocated ≤ 0
  · simp [h]
  · simp only [if_neg h]
    rw [allocLoop_eq_allocLoopList]
    rw [hdrain]

/-- Two batch rows of a table with unique primary keys that share an id are
the same row. -/
theorem batch_eq_of_id {l : List Batch}
    (hnd : (l.map (fun b => b.id)).Nodup) {b c : Batch}
    (hb : b ∈ l) (hc : c ∈ l) (h : b.id = c.id) : b = c :=
  List.inj_on_of_nodup_map hnd hb hc h

/-- `find?` by id on a table with unique primary keys returns the member
with that id. -/
theorem find_batch_of_mem_nodup {l : List Batch}
    (hnd : (l.map (fun b => b.id)).Nodup) {b : Batch} (hb : b ∈ l) :
    l.find? (fun c => c.id == b.id) = some b := by
  induction l with
  | nil => cases hb
  | cons x t ih =>
      rcases List.mem_cons.mp hb with rfl | hbt
      · simp
      · have hx : x.id ≠ b.id := by
          intro he
          have hhead : x.id ∉ t.map (fun c => c.id) :=
            (List.nodup_cons.mp (by simpa using hnd)).1
          exact hhead (he ▸ List.mem_map_of_mem _ hbt)
        rw [List.find?_cons_of_neg _ (by simpa using hx)]
        exact ih (List.nodup_cons.mp (by simpa using hnd)).2 hbt

/-- If two states agree on batches, allocations and the allocation-id
counter, well-formedness and both ledger invariants transfer. -/
theorem inv_transfer {st st' : State} (hb : st'.batches = st.batches)
    (ha : st'.allocations = st.allocations)
    (hn : st'.nextAllocationId = st.nextAllocationId) :
    (Wf st → Wf st') ∧ (InvLe st → InvLe st') ∧ (InvEq st → InvEq st') := by
  unfold Wf InvLe InvEq sumAllocFor
  rw [hb, ha, hn]
  exact ⟨id, id, id⟩

/-- Adding an allocation row adds its quantity to the total of its batch
and nothing to any other batch. -/
theorem sum_alloc_cons (a : Allocation) (l : List Allocation) (bid : Nat) :
    (((a :: l).filter (fun x => x.batchId == bid)).map
        (fun x => x.qtyAllocated)).sum =
      (if a.batchId == bid then a.qtyAllocated else 0) +
        ((l.filter (fun x => x.batchId == bid)).map
          (fun x => x.qtyAllocated)).sum := by
  by_cases h : a.batchId == bid
  · simp [List.filter_cons, h]
  · simp [List.filter_cons, h]

/-- Filtering out an id that occurs nowhere in the table is the identity. -/
theorem filter_ne_id_eq_self {l : List Allocation} {i : Nat}
    (h : ∀ x ∈ l, x.id ≠ i) : l.filter (fun x => !(x.id == i)) = l := by
  apply List.filter_eq_self.mpr
  intro x hx
  simpa using h x hx

/-- Deleting one allocation row (by its unique id) subtracts its quantity
from the total of its batch and nothing from any other batch. -/
theorem sum_alloc_remove (l : List Allocation) (a : Allocation)
    (hnd : (l.map (fun x => x.id)).Nodup) (ha : a ∈ l) (bid : Nat) :
    (((l.filter (fun x => !(x.id == a.id))).filter
        (fun x => x.batchId == bid)).map (fun x => x.qtyAllocated)).sum =
      ((l.filter (fun x => x.batchId == bid)).map
        (fun x => x.qtyAllocated)).sum -
        (if a.batchId == bid then a.qtyAllocated else 0) := by
  induction l with
  | nil => cases ha
  | cons x t ih =>
      have hhead : x.id ∉ t.map (fun c => c.id) :=
        (List.nodup_cons.mp (by simpa using hnd)).1
      have htail : (t.map (fun c => c.id)).Nodup :=
        (List.nodup_cons.mp (by simpa using hnd)).2
      rcases List.mem_cons.mp ha with rfl | hat
      · have hkeep : ∀ y ∈ t, y.id ≠ a.id := by
          intro y hy he
          exact hhead (he ▸ List.mem_map_of_mem _ hy)
        have h1 : (a :: t).filter (fun x => !(x.id == a.id)) =
            t.filter (fun x => !(x.id == a.id)) := by
          simp [List.filter_cons]
        rw [h1, filter_ne_id_eq_self hkeep, sum_alloc_cons]
        by_cases h : a.batchId == bid <;> simp [h]
      · have hx : x.id ≠ a.id := by
          intro he
          exact hhead (he ▸ List.mem_map_of_mem _ hat)
        have h1 : (x :: t).filter (fun y => !(y.id == a.id)) =
            x :: t.filter (fun y => !(y.id == a.id)) := by
          simp [List.filter_cons, hx]
        rw [h1, sum_alloc_cons, sum_alloc_cons, ih htail hat]
        omega

/-- `bumpBatchQty` leaves the id column unchanged. -/
theorem bumpBatchQty_ids (st : State) (bid : Nat) (d : Int) :
    (bumpBatchQty st bid d).batches.map (fun b => b.id) =
      st.batches.map (fun b => b.id) := by
  simp only [bumpBatchQty]
  rw [List.map_map]
  apply List.map_congr_left
  intro c _
  by_cases h : c.id = bid <;> simp [h]

/-- The row-level updates `allocCandidate` performs, spelled out. -/
theorem allocCandidate_fields (st : State) (oi : OrderItem) (b : Batch)
    (q : Int) :
    (allocCandidate st oi b q).batches = (bumpBatchQty st b.id (-q)).batches ∧
    (allocCandidate st oi b q).allocations =
      (⟨st.nextAllocationId, oi.id, b.id, q⟩ : Allocation)
        :: st.allocations ∧
    (allocCandidate st oi b q).nextAllocationId = st.nextAllocationId + 1 :=
  ⟨rfl, rfl, rfl⟩

/-- `allocCandidate` preserves well-formedness: the new allocation gets the
fresh id and a nonnegative quantity. -/
theorem allocCandidate_wf (st : State) (oi : OrderItem) (b : Batch) (q : Int)
    (hwf : Wf st) (hq0 : 0 ≤ q) : Wf (allocCandidate st oi b q) := by
  obtain ⟨hbn, han, hab, haq⟩ := hwf
  obtain ⟨hfb, hfa, hfn⟩ := allocCandidate_fields st oi b q
  refine ⟨?_, ?_, ?_, ?_⟩
  · rw [hfb, bumpBatchQty_ids]
    exact hbn
  · rw [hfa, List.map_cons]
    refine List.nodup_cons.mpr ⟨?_, han⟩
    intro hmem
    obtain ⟨a, hal, hae⟩ := List.mem_map.mp hmem
    exact absurd hae (Nat.ne_of_lt (hab a hal))
  · rw [hfa, hfn]
    intro a hal
    rcases List.mem_cons.mp hal with rfl | hal'
    · exact Nat.lt_succ_self _
    · exact Nat.lt_succ_of_lt (hab a hal')
  · rw [hfa]
    intro a hal
    rcases List.mem_cons.mp hal with rfl | hal'
    · exact hq0
    · exact haq a hal'

/-- Adding the allocation row of `allocCandidate` adds `q` to the total of
batch `b` and nothing to any other batch. -/
theorem allocCandidate_sum (st : State) (oi : OrderItem) (b : Batch)
    (q : Int) (bid : Nat) :
    sumAllocFor (allocCandidate st oi b q) bid =
      (if b.id == bid then q else 0) + sumAllocFor st bid := by
  obtain ⟨_, hfa, _⟩ := allocCandidate_fields st oi b q
  unfold sumAllocFor
  rw [hfa, sum_alloc_cons]

/-- `allocCandidate` preserves both forms of the ledger invariant when the
quantity taken is within the batch's availability: the batch decrement and
the new allocation row move in lockstep. -/
theorem allocCandidate_inv (st : State) (oi : OrderItem) (b : Batch)
    (q : Int) (hnd : (st.batches.map (fun c => c.id)).Nodup)
    (hb : b ∈ st.batches) (hqle : q ≤ b.availableQty) :
    (InvLe st → InvLe (allocCandidate st oi b q)) ∧
    (InvEq st → InvEq (allocCandidate st oi b q)) := by
  have hmem : ∀ b' ∈ (allocCandidate st oi b q).batches,
      ∃ c ∈ st.batches,
        b' = if c.id == b.id then
          { c with availableQty := c.availableQty + (-q) } else c := by
    intro b' hb'
    obtain ⟨c, hc, hce⟩ := List.mem_map.mp hb'
    exact ⟨c, hc, hce.symm⟩
  constructor
  · intro hinv b' hb'
    obtain ⟨c, hc, rfl⟩ := hmem b' hb'
    obtain ⟨hc0, hcs⟩ := hinv c hc
    by_cases hcb : c.id == b.id
    · have hceq : c = b := batch_eq_of_id hnd hc hb (by simpa using hcb)
      subst hceq
      rw [if_pos hcb]
      have h2 := allocCandidate_sum st oi c q c.id
      rw [if_pos (by simp : (c.id == c.id) = true)] at h2
      constructor
      · show 0 ≤ c.availableQty + -q
        omega
      · show sumAllocFor (allocCandidate st oi c q) c.id ≤
          c.receivedQty - (c.availableQty + -q)
        omega
    · rw [if_neg hcb]
      have hne : b.id ≠ c.id := fun he => hcb (by simp [he])
      have h2 := allocCandidate_sum st oi b q c.id
      rw [if_neg (by simpa using hne)] at h2
      refine ⟨hc0, ?_⟩
      omega
  · intro hinv b' hb'
    obtain ⟨c, hc, rfl⟩ := hmem b' hb'
    obtain ⟨hc0, hcs⟩ := hinv c hc
    by_cases hcb : c.id == b.id
    · have hceq : c = b := batch_eq_of_id hnd hc hb (by simpa using hcb)
      subst hceq
      rw [if_pos hcb]
      have h2 := allocCandidate_sum st oi c q c.id
      rw [if_pos (by simp : (c.id == c.id) = true)] at h2
      constructor
      · show 0 ≤ c.availableQty + -q
        omega
      · show sumAllocFor (allocCandidate st oi c q) c.id =
          c.receivedQty - (c.availableQty + -q)
        omega
    · rw [if_neg hcb]
      have hne : b.id ≠ c.id := fun he => hcb (by simp [he])
      have h2 := allocCandidate_sum st oi b q c.id
      rw [if_neg (by simpa using hne)] at h2
      refine ⟨hc0, ?_⟩
      omega

/-- The candidate loop preserves well-formedness and both ledger invariants:
every successful iteration allocates a nonnegative quantity bounded by the
batch's current availability. -/
theorem allocLoop_preserves (oi : OrderItem) :
    ∀ (fuel : Nat) (s : ManualStack Nat) (q : Int) (st : State)
      (made made' : List (String × Int)) (q' : Int) (st' : State),
      allocLoop oi fuel s q st made = Except.ok (made', q', st') →
      Wf st →
      Wf st' ∧ (InvLe st → InvLe st') ∧ (InvEq st → InvEq st') := by
  intro fuel
  induction fuel with
  | zero =>
      intro s q st made made' q' st' h hwf
      simp only [allocLoop, Except.ok.injEq, Prod.mk.injEq] at h
      obtain ⟨-, -, rfl⟩ := h
      exact ⟨hwf, id, id⟩
  | succ n ih =>
      intro s q st made made' q' st' h hwf
      simp only [allocLoop] at h
      by_cases hq : q ≤ 0
      · rw [if_pos hq] at h
        simp only [Except.ok.injEq, Prod.mk.injEq] at h
        obtain ⟨-, -, rfl⟩ := h
        exact ⟨hwf, id, id⟩
      · rw [if_neg hq] at h
        cases hpop : s.pop with
        | none =>
            rw [hpop] at h
            simp only [Except.ok.injEq, Prod.mk.injEq] at h
            obtain ⟨-, -, rfl⟩ := h
            exact ⟨hwf, id, id⟩
        | some pr =>
            obtain ⟨bid, s2⟩ := pr
            rw [hpop] at h
            dsimp only at h
            cases hfb : findBatch st bid with
            | none =>
                rw [hfb] at h
                cases h
            | some b =>
                rw [hfb] at h
                dsimp only at h
                by_cases hskip :
                    b.availableQty ≤ 0 ∨ b.status ≠ BatchStatus.available
                · rw [if_pos hskip] at h
                  exact ih s2 q st made made' q' st' h hwf
                · rw [if_neg hskip] at h
                  have hbpos : 0 < b.availableQty := by
                    rcases not_or.mp hskip with ⟨h1, -⟩
                    omega
                  have hq0 : 0 ≤ min b.availableQty q := by
                    have : 0 < q := by omega
                    omega
                  have hqle : min b.availableQty q ≤ b.availableQty :=
                    min_le_left _ _
                  have hb : b ∈ st.batches := by
                    have := List.mem_of_find?_eq_some hfb
                    exact this
                  have hwf2 : Wf (allocCandidate st oi b (min b.availableQty q)) :=
                    allocCandidate_wf st oi b _ hwf hq0
                  have hinv2 := allocCandidate_inv st oi b
                    (min b.availableQty q) hwf.1 hb hqle
                  obtain ⟨hwf3, hle3, heq3⟩ := ih s2 (q - min b.availableQty q)
                    (allocCandidate st oi b (min b.availableQty q))
                    (made ++ [(b.lotNo, min b.availableQty q)]) made' q' st'
                    h hwf2
                  exact ⟨hwf3, fun hle => hle3 (hinv2.1 hle),
                    fun heq => heq3 (hinv2.2 heq)⟩

/-- `_allocate_item_with_stack` preserves well-formedness and both ledger
invariants: updating the line's `qty_allocated` leaves batches and
allocations untouched, and the loop preserves them. -/
theorem allocateItem_preserves (nullsLast : Bool) (today : Int) (st : State)
    (oi : OrderItem) (r : LineResult) (st' : State)
    (h : allocateItemWithStack nullsLast today st oi = Except.ok (r, st'))
    (hwf : Wf st) :
    Wf st' ∧ (InvLe st → InvLe st') ∧ (InvEq st → InvEq st') := by
  simp only [allocateItemWithStack] at h
  by_cases hq : oi.qtyRequested - oi.qtyAllocated ≤ 0
  · rw [if_pos hq] at h
    simp only [Except.ok.injEq, Prod.mk.injEq] at h
    obtain ⟨-, rfl⟩ := h
    exact ⟨hwf, id, id⟩
  · rw [if_neg hq] at h
    cases hall : allocLoop oi
        (eligibleBatchIds nullsLast today st oi.itemId).length
        (ManualStack.pushList
          (ManualStack.mkStack
            (max 16 (eligibleBatchIds nullsLast today st oi.itemId).length))
          (eligibleBatchIds nullsLast today st oi.itemId).reverse)
        (oi.qtyRequested - oi.qtyAllocated) st [] with
    | error e =>
        rw [hall] at h
        cases h
    | ok trip =>
        obtain ⟨made, qRem, st1⟩ := trip
        rw [hall] at h
        simp only [Except.ok.injEq, Prod.mk.injEq] at h
        obtain ⟨-, rfl⟩ := h
        obtain ⟨hwf1, hle1, heq1⟩ := allocLoop_preserves oi _ _ _ _ _ _ _ _
          hall hwf
        have htr := @inv_transfer st1
          (bumpOrderItemQty st1 oi.id
            (oi.qtyRequested - oi.qtyAllocated - qRem))
          rfl rfl rfl
        exact ⟨htr.1 hwf1, fun hle => htr.2.1 (hle1 hle),
          fun heq => htr.2.2 (heq1 heq)⟩

/-- The line loop of `allocate_order` preserves well-formedness and both
ledger invariants. -/
theorem processLines_preserves (nullsLast : Bool) (today : Int) :
    ∀ (items : List OrderItem) (st : State) (results : List LineResult)
      (st1 : State),
      processLines nullsLast today st items = Except.ok (results, st1) →
      Wf st →
      Wf st1 ∧ (InvLe st → InvLe st1) ∧ (InvEq st → InvEq st1) := by
  intro items
  induction items with
  | nil =>
      intro st results st1 h hwf
      simp only [processLines, Except.ok.injEq, Prod.mk.injEq] at h
      obtain ⟨-, rfl⟩ := h
      exact ⟨hwf, id, id⟩
  | cons oi rest ih =>
      intro st results st1 h hwf
      simp only [processLines] at h
      cases h1 : allocateItemWithStack nullsLast today st oi with
      | error e =>
          rw [h1] at h
          cases h
      | ok pr =>
          obtain ⟨r, st2⟩ := pr
          rw [h1] at h
          dsimp only at h
          cases h2 : processLines nullsLast today st2 rest with
          | error e =>
              rw [h2] at h
              cases h
          | ok pr2 =>
              obtain ⟨rs, st3⟩ := pr2
              rw [h2] at h
              simp only [Except.ok.injEq, Prod.mk.injEq] at h
              obtain ⟨-, rfl⟩ := h
              obtain ⟨hwfa, hlea, heqa⟩ :=
                allocateItem_preserves nullsLast today st oi r st2 h1 hwf
              obtain ⟨hwfb, hleb, heqb⟩ := ih st2 rs st3 h2 hwfa
              exact ⟨hwfb, fun hle => hleb (hlea hle),
                fun heq => heqb (heqa heq)⟩

/-- `allocate_order` preserves well-formedness and both ledger invariants,
whatever branch it takes: every error path rolls back to the entry state,
and the success paths only additionally touch the order status or the
notification table. -/
theorem allocateOrder_preserves (nullsLast : Bool) (today : Int) (st : State)
    (oid : Nat) (hwf : Wf st) :
    (InvLe st → Wf (allocateOrder nullsLast today st oid).2 ∧
      InvLe (allocateOrder nullsLast today st oid).2) ∧
    (InvEq st → Wf (allocateOrder nullsLast today st oid).2 ∧
      InvEq (allocateOrder nullsLast today st oid).2) := by
  simp only [allocateOrder]
  split
  · exact ⟨fun h => ⟨hwf, h⟩, fun h => ⟨hwf, h⟩⟩
  · split
    · exact ⟨fun h => ⟨hwf, h⟩, fun h => ⟨hwf, h⟩⟩
    · split
      · exact ⟨fun h => ⟨hwf, h⟩, fun h => ⟨hwf, h⟩⟩
      · split
        · exact ⟨fun h => ⟨hwf, h⟩, fun h => ⟨hwf, h⟩⟩
        · next results st1 hproc =>
            obtain ⟨hwf1, hle1, heq1⟩ := processLines_preserves nullsLast
              today _ st results st1 hproc hwf
            split
            · have htr := @inv_transfer st1
                (setOrderStatus st1 oid OrderStatus.allocated)
                rfl rfl rfl
              exact ⟨fun h => ⟨htr.1 hwf1, htr.2.1 (hle1 h)⟩,
                fun h => ⟨htr.1 hwf1, htr.2.2 (heq1 h)⟩⟩
            · split
              · exact ⟨fun h => ⟨hwf, h⟩, fun h => ⟨hwf, h⟩⟩
              · have htr := @inv_transfer st1
                  { st1 with notifications :=
                    { level := NotifLevel.warning } :: st1.notifications }
                  rfl rfl rfl
                exact ⟨fun h => ⟨htr.1 hwf1, htr.2.1 (hle1 h)⟩,
                  fun h => ⟨htr.1 hwf1, htr.2.2 (heq1 h)⟩⟩

/-- The row-level updates `releaseAllocation` performs, spelled out. -/
theorem releaseAllocation_fields (st : State) (a : Allocation) :
    (releaseAllocation st a).batches =
      (bumpBatchQty st a.batchId a.qtyAllocated).batches ∧
    (releaseAllocation st a).allocations =
      st.allocations.filter (fun x => !(x.id == a.id)) ∧
    (releaseAllocation st a).nextAllocationId = st.nextAllocationId :=
  ⟨rfl, rfl, rfl⟩

/-- Releasing one allocation row preserves well-formedness and both ledger
invariants: the batch increment and the deleted allocation row move in
lockstep. -/
theorem releaseAllocation_preserves (st : State) (a : Allocation)
    (ha : a ∈ st.allocations) (hwf : Wf st) :
    Wf (releaseAllocation st a) ∧
    (InvLe st → InvLe (releaseAllocation st a)) ∧
    (InvEq st → InvEq (releaseAllocation st a)) := by
  obtain ⟨hbn, han, hab, haq⟩ := hwf
  obtain ⟨hfb, hfa, hfn⟩ := releaseAllocation_fields st a
  have hsum : ∀ bid : Nat,
      sumAllocFor (releaseAllocation st a) bid =
        sumAllocFor st bid -
          (if a.batchId == bid then a.qtyAllocated else 0) := by
    intro bid
    unfold sumAllocFor
    rw [hfa]
    exact sum_alloc_remove st.allocations a han ha bid
  have hmem : ∀ b' ∈ (releaseAllocation st a).batches,
      ∃ c ∈ st.batches,
        b' = if c.id == a.batchId then
          { c with availableQty := c.availableQty + a.qtyAllocated }
        else c := by
    intro b' hb'
    rw [hfb] at hb'
    obtain ⟨c, hc, hce⟩ := List.mem_map.mp hb'
    exact ⟨c, hc, hce.symm⟩
  have haq0 : 0 ≤ a.qtyAllocated := haq a ha
  refine ⟨⟨?_, ?_, ?_, ?_⟩, ?_, ?_⟩
  · rw [hfb, bumpBatchQty_ids]
    exact hbn
  · rw [hfa]
    exact List.Nodup.sublist
      (List.Sublist.map _ (List.filter_sublist _)) han
  · rw [hfa, hfn]
    intro x hx
    exact hab x (List.mem_of_mem_filter hx)
  · rw [hfa]
    intro x hx
    exact haq x (List.mem_of_mem_filter hx)
  · intro hinv b' hb'
    obtain ⟨c, hc, rfl⟩ := hmem b' hb'
    obtain ⟨hc0, hcs⟩ := hinv c hc
    have h2 := hsum c.id
    by_cases hcb : c.id == a.batchId
    · have hceq : a.batchId = c.id := (by simpa using hcb : c.id = a.batchId).symm
      rw [if_pos hcb]
      rw [if_pos (by simpa using hceq)] at h2
      constructor
      · show 0 ≤ c.availableQty + a.qtyAllocated
        omega
      · show sumAllocFor (releaseAllocation st a) c.id ≤
          c.receivedQty - (c.availableQty + a.qtyAllocated)
        omega
    · have hne : a.batchId ≠ c.id := fun he => hcb (by simp [he])
      rw [if_neg hcb]
      rw [if_neg (by simpa using hne)] at h2
      refine ⟨hc0, ?_⟩
      omega
  · intro hinv b' hb'
    obtain ⟨c, hc, rfl⟩ := hmem b' hb'
    obtain ⟨hc0, hcs⟩ := hinv c hc
    have h2 := hsum c.id
    by_cases hcb : c.id == a.batchId
    · have hceq : a.batchId = c.id := (by simpa using hcb : c.id = a.batchId).symm
      rw [if_pos hcb]
      rw [if_pos (by simpa using hceq)] at h2
      constructor
      · show 0 ≤ c.availableQty + a.qtyAllocated
        omega
      · show sumAllocFor (releaseAllocation st a) c.id =
          c.receivedQty - (c.availableQty + a.qtyAllocated)
        omega
    · have hne : a.batchId ≠ c.id := fun he => hcb (by simp [he])
      rw [if_neg hcb]
      rw [if_neg (by simpa using hne)] at h2
      refine ⟨hc0, ?_⟩
      omega

/-- Releasing a list of distinct allocation rows, all present in the state,
preserves well-formedness and both ledger invariants. -/
theorem release_fold_preserves :
    ∀ (as : List Allocation) (st : State),
      (∀ x ∈ as, x ∈ st.allocations) →
      ((as.map (fun x => x.id)).Nodup) →
      Wf st →
      Wf (as.foldl releaseAllocation st) ∧
      (InvLe st → InvLe (as.foldl releaseAllocation st)) ∧
      (InvEq st → InvEq (as.foldl releaseAllocation st)) := by
  intro as
  induction as with
  | nil =>
      intro st _ _ hwf
      exact ⟨hwf, id, id⟩
  | cons a rest ih =>
      intro st hmem hnd hwf
      have hhead : a.id ∉ rest.map (fun x => x.id) :=
        (List.nodup_cons.mp (by simpa using hnd)).1
      have hnd2 : (rest.map (fun x => x.id)).Nodup :=
        (List.nodup_cons.mp (by simpa using hnd)).2
      have h1 := releaseAllocation_preserves st a (hmem a (by simp)) hwf
      have hm2 : ∀ x ∈ rest, x ∈ (releaseAllocation st a).allocations := by
        intro x hx
        rw [(releaseAllocation_fields st a).2.1]
        refine List.mem_filter.mpr ⟨hmem x (by simp [hx]), ?_⟩
        have hxne : x.id ≠ a.id := by
          intro he
          exact hhead (he ▸ List.mem_map_of_mem _ hx)
        simpa using hxne
      obtain ⟨hwf2, hle2, heq2⟩ := ih (releaseAllocation st a) hm2 hnd2 h1.1
      exact ⟨hwf2, fun h => hle2 (h1.2.1 h), fun h => heq2 (h1.2.2 h)⟩

/-- The per-line body of the deallocation view preserves well-formedness and
both ledger invariants. -/
theorem deallocLine_preserves (st : State) (oi : OrderItem) (hwf : Wf st) :
    Wf (deallocLine st oi) ∧
    (InvLe st → InvLe (deallocLine st oi)) ∧
    (InvEq st → InvEq (deallocLine st oi)) := by
  have hmem : ∀ x ∈ st.allocations.filter
      (fun a => a.orderItemId == oi.id), x ∈ st.allocations :=
    fun x hx => List.mem_of_mem_filter hx
  have hnd : ((st.allocations.filter
      (fun a => a.orderItemId == oi.id)).map (fun x => x.id)).Nodup :=
    List.Nodup.sublist (List.Sublist.map _ (List.filter_sublist _)) hwf.2.1
  obtain ⟨hwf1, hle1, heq1⟩ := release_fold_preserves
    (st.allocations.filter (fun a => a.orderItemId == oi.id)) st hmem hnd hwf
  have hb : (deallocLine st oi).batches =
      ((st.allocations.filter
        (fun a => a.orderItemId == oi.id)).foldl releaseAllocation st).batches :=
    rfl
  have ha : (deallocLine st oi).allocations =
      ((st.allocations.filter
        (fun a => a.orderItemId == oi.id)).foldl
          releaseAllocation st).allocations := rfl
  have hn : (deallocLine st oi).nextAllocationId =
      ((st.allocations.filter
        (fun a => a.orderItemId == oi.id)).foldl
          releaseAllocation st).nextAllocationId := rfl
  have htr := inv_transfer hb ha hn
  exact ⟨htr.1 hwf1, fun h => htr.2.1 (hle1 h), fun h => htr.2.2 (heq1 h)⟩

/-- The outer loop of the deallocation view preserves well-formedness and
both ledger invariants. -/
theorem dealloc_fold_preserves :
    ∀ (items : List OrderItem) (st : State), Wf st →
      Wf (items.foldl deallocLine st) ∧
      (InvLe st → InvLe (items.foldl deallocLine st)) ∧
      (InvEq st → InvEq (items.foldl deallocLine st)) := by
  intro items
  induction items with
  | nil =>
      intro st hwf
      exact ⟨hwf, id, id⟩
  | cons oi rest ih =>
      intro st hwf
      obtain ⟨hwf1, hle1, heq1⟩ := deallocLine_preserves st oi hwf
      obtain ⟨hwf2, hle2, heq2⟩ := ih (deallocLine st oi) hwf1
      exact ⟨hwf2, fun h => hle2 (hle1 h), fun h => heq2 (heq1 h)⟩

/-- `DeallocateOrderView.post` preserves well-formedness and both ledger
invariants. -/
theorem deallocateOrder_preserves (st : State) (oid : Nat) (hwf : Wf st) :
    Wf (deallocateOrder st oid).2 ∧
    (InvLe st → InvLe (deallocateOrder st oid).2) ∧
    (InvEq st → InvEq (deallocateOrder st oid).2) := by
  cases hfo : findOrder st oid with
  | none =>
      simp only [deallocateOrder, hfo]
      exact ⟨hwf, id, id⟩
  | some o =>
      obtain ⟨hwf1, hle1, heq1⟩ := dealloc_fold_preserves
        (st.orderItems.filter (fun x => x.orderId == oid)) st hwf
      have hb : (deallocateOrder st oid).2.batches =
          ((st.orderItems.filter
            (fun x => x.orderId == oid)).foldl deallocLine st).batches := by
        simp only [deallocateOrder, hfo]
        rfl
      have ha : (deallocateOrder st oid).2.allocations =
          ((st.orderItems.filter
            (fun x => x.orderId == oid)).foldl deallocLine st).allocations := by
        simp only [deallocateOrder, hfo]
        rfl
      have hn : (deallocateOrder st oid).2.nextAllocationId =
          ((st.orderItems.filter
            (fun x => x.orderId == oid)).foldl
              deallocLine st).nextAllocationId := by
        simp only [deallocateOrder, hfo]
        rfl
      have htr := inv_transfer hb ha hn
      exact ⟨htr.1 hwf1, fun h => htr.2.1 (hle1 h), fun h => htr.2.2 (heq1 h)⟩

/-- `Batch.reserve` preserves well-formedness and the inequality form of
the ledger invariant: a successful reserve decrements a batch that had at
least the requested quantity and touches no allocation row.  (It does not
preserve the equality form — that is exactly the counterexample to the
claim as stated.) -/
theorem reserveBatch_preserves (st : State) (bid : Nat) (qty : Int)
    (hwf : Wf st) :
    Wf (reserveBatch st bid qty).2 ∧
    (InvLe st → InvLe (reserveBatch st bid qty).2) := by
  by_cases hq : qty ≤ 0
  · simp only [reserveBatch, if_pos hq]
    exact ⟨hwf, id⟩
  · cases hfb : findBatch st bid with
    | none =>
        simp only [reserveBatch, if_neg hq, hfb]
        exact ⟨hwf, id⟩
    | some locked =>
        by_cases hst : locked.status ≠ BatchStatus.available
        · simp only [reserveBatch, if_neg hq, hfb, if_pos hst]
          exact ⟨hwf, id⟩
        · by_cases hlt : locked.availableQty < qty
          · simp only [reserveBatch, if_neg hq, hfb, if_neg hst, if_pos hlt]
            exact ⟨hwf, id⟩
          · simp only [reserveBatch, if_neg hq, hfb, if_neg hst, if_neg hlt]
            have hlocked : locked ∈ st.batches :=
              List.mem_of_find?_eq_some hfb
            have hlid : locked.id = bid := by
              have := List.find?_some hfb
              simpa using this
            constructor
            · refine ⟨?_, hwf.2.1, hwf.2.2.1, hwf.2.2.2⟩
              rw [bumpBatchQty_ids]
              exact hwf.1
            · intro hinv b' hb'
              obtain ⟨c, hc, hce⟩ := List.mem_map.mp hb'
              obtain ⟨hc0, hcs⟩ := hinv c hc
              have hsum : ∀ x : Nat,
                  sumAllocFor (bumpBatchQty st bid (-qty)) x =
                    sumAllocFor st x := fun _ => rfl
              subst hce
              by_cases hcb : c.id == bid
              · have hceq : c = locked :=
                  batch_eq_of_id hwf.1 hc hlocked
                    (by rw [hlid]; simpa using hcb)
                rw [if_pos hcb]
                constructor
                · show 0 ≤ c.availableQty + -qty
                  rw [hceq]
                  omega
                · show sumAllocFor (bumpBatchQty st bid (-qty)) c.id ≤
                    c.receivedQty - (c.availableQty + -qty)
                  rw [hsum]
                  omega
              · rw [if_neg hcb]
                exact ⟨hc0, by rw [hsum]; exact hcs⟩

/-- `perform_undo` preserves well-formedness and both ledger invariants: it
only ever pops the undo stack before crashing. -/
theorem performUndo_preserves (st : State) (count : Nat) (hwf : Wf st) :
    Wf (performUndo st count).2 ∧
    (InvLe st → InvLe (performUndo st count).2) ∧
    (InvEq st → InvEq (performUndo st count).2) := by
  cases count with
  | zero => exact ⟨hwf, id, id⟩
  | succ n =>
      cases hstk : st.undoStack with
      | nil =>
          simp only [performUndo, performUndoLoop, hstk]
          exact ⟨hwf, id, id⟩
      | cons r rest =>
          simp only [performUndo, performUndoLoop, hstk]
          have htr := @inv_transfer st
            { st with undoStack := rest } rfl rfl rfl
          exact ⟨htr.1 hwf, htr.2.1, htr.2.2⟩

/-- `perform_redo` preserves well-formedness and both ledger invariants. -/
theorem performRedo_preserves (st : State) (count : Nat) (hwf : Wf st) :
    Wf (performRedo st count).2 ∧
    (InvLe st → InvLe (performRedo st count).2) ∧
    (InvEq st → InvEq (performRedo st count).2) := by
  cases count with
  | zero => exact ⟨hwf, id, id⟩
  | succ n =>
      cases hstk : st.redoStack with
      | nil =>
          simp only [performRedo, performRedoLoop, hstk]
          exact ⟨hwf, id, id⟩
      | cons r rest =>
          simp only [performRedo, performRedoLoop, hstk]
          have htr := @inv_transfer st
            { st with redoStack := rest } rfl rfl rfl
          exact ⟨htr.1 hwf, htr.2.1, htr.2.2⟩

/-- Every engine operation preserves well-formedness and the inequality
invariant; every operation other than a bare reserve also preserves the
equality invariant. -/
theorem applyOp_preserves (st : State) (op : EngineOp) (hwf : Wf st) :
    (InvLe st → Wf (applyOp st op) ∧ InvLe (applyOp st op)) ∧
    (op.isReserve = false → InvEq st →
      Wf (applyOp st op) ∧ InvEq (applyOp st op)) := by
  cases op with
  | reserve bid q =>
      have h := reserveBatch_preserves st bid q hwf
      exact ⟨fun hle => ⟨h.1, h.2 hle⟩,
        fun hfalse => absurd hfalse (by simp [EngineOp.isReserve])⟩
  | allocate nl t oid =>
      have h := allocateOrder_preserves nl t st oid hwf
      exact ⟨fun hle => (h.1 hle), fun _ heq => (h.2 heq)⟩
  | deallocate oid =>
      have h := deallocateOrder_preserves st oid hwf
      exact ⟨fun hle => ⟨h.1, h.2.1 hle⟩, fun _ heq => ⟨h.1, h.2.2 heq⟩⟩
  | undo c =>
      have h := performUndo_preserves st c hwf
      exact ⟨fun hle => ⟨h.1, h.2.1 hle⟩, fun _ heq => ⟨h.1, h.2.2 heq⟩⟩
  | redo c =>
      have h := performRedo_preserves st c hwf
      exact ⟨fun hle => ⟨h.1, h.2.1 hle⟩, fun _ heq => ⟨h.1, h.2.2 heq⟩⟩

/-- Sequences of engine operations preserve well-formedness and the
inequality invariant, and sequences without a bare reserve preserve the
equality invariant. -/
theorem applyOps_preserves :
    ∀ (ops : List EngineOp) (st : State), Wf st →
      (InvLe st → Wf (applyOps st ops) ∧ InvLe (applyOps st ops)) ∧
      ((ops.all fun op => !op.isReserve) = true → InvEq st →
        Wf (applyOps st ops) ∧ InvEq (applyOps st ops)) := by
  intro ops
  induction ops with
  | nil =>
      intro st hwf
      exact ⟨fun h => ⟨hwf, h⟩, fun _ h => ⟨hwf, h⟩⟩
  | cons op rest ih =>
      intro st hwf
      constructor
      · intro hle
        have h1 := (applyOp_preserves st op hwf).1 hle
        exact (ih (applyOp st op) h1.1).1 h1.2
      · intro hall heq
        have hall' := hall
        rw [List.all_cons, Bool.and_eq_true] at hall'
        have hop : op.isReserve = false := by
          have := hall'.1
          simpa using this
        have hrest : (rest.all fun op => !op.isReserve) = true := hall'.2
        have h1 := (applyOp_preserves st op hwf).2 hop heq
        exact (ih (applyOp st op) h1.1).2 hrest h1.2

/-- C1 (amended): from any well-formed state, every sequence of engine
operations (bare `Batch.reserve`, `allocate_order`, deallocation, undo,
redo) keeps `available_qty(B) ≥ 0` for every batch B and keeps
`Σ qty_allocated ≤ received_qty(B) − available_qty(B)`; the claimed
equality `received_qty − available_qty = Σ qty_allocated` is additionally
preserved by every sequence that contains no bare `Batch.reserve` — a bare
reserve decrements stock without writing an `Allocation` row and breaks it
(see the counterexample). -/
theorem ledger_invariant_preserved (st : State) (ops : List EngineOp)
    (hwf : Wf st) :
    (InvLe st → Wf (applyOps st ops) ∧ InvLe (applyOps st ops)) ∧
    ((ops.all fun op => !op.isReserve) = true → InvEq st →
      Wf (applyOps st ops) ∧ InvEq (applyOps st ops)) :=
  applyOps_preserves ops st hwf

/-- Witness for C1 (amended): the FEFO scenario state is well-formed and
satisfies the equality invariant, and it still does after an allocation of
its order followed by a deallocation. -/
theorem ledger_invariant_preserved_witness :
    InvEq stFefo ∧
    Wf (applyOps stFefo
      [EngineOp.allocate true 0 1, EngineOp.deallocate 1]) ∧
    InvEq (applyOps stFefo
      [EngineOp.allocate true 0 1, EngineOp.deallocate 1]) := by
  have h := (ledger_invariant_preserved stFefo
    [EngineOp.allocate true 0 1, EngineOp.deallocate 1]
    (by unfold Wf; decide)).2 (by decide) (by unfold InvEq; decide)
  exact ⟨by unfold InvEq; decide, h.1, h.2⟩

/-- C4 (amended): for an existing, non-cancelled order with at least one
line, once the line loop has produced its results, `allocate_order` behaves
as follows.  If every line came back fully allocated, the order status is
set to ALLOCATED and the report returned.  If every line failed, the whole
transaction — all allocations made in the call and the error-level
notification created in this branch — is rolled back to the entry state and
`AllocationError` is raised, so no error notification persists.  Otherwise
the allocations made are kept, the order status is left as loaded (NEW stays
NEW), and a warning-level notification is persisted. -/
theorem allocateOrder_outcome_rule (nullsLast : Bool) (today : Int)
    (st : State) (orderId : Nat) (o : Order)
    (ho : findOrder st orderId = some o)
    (hnc : ¬ o.status = OrderStatus.cancelled)
    (hne : (st.orderItems.filter
      (fun oi => oi.orderId == orderId)).isEmpty = false)
    (results : List LineResult) (st1 : State)
    (hp : processLines nullsLast today st
        (st.orderItems.filter (fun oi => oi.orderId == orderId)) =
      Except.ok (results, st1)) :
    (countStatus results LineStatus.fullyAllocated =
        (st.orderItems.filter (fun oi => oi.orderId == orderId)).length →
      allocateOrder nullsLast today st orderId =
        (Except.ok
          { orderId := o.id, orderNo := o.orderNo,
            status := OrderStatus.allocated,
            itemsAllocated := countStatus results LineStatus.fullyAllocated,
            itemsPartial :=
              countStatus results LineStatus.partiallyAllocated,
            itemsFailed := countStatus results LineStatus.allocationFailed,
            details := results },
         setOrderStatus st1 orderId OrderStatus.allocated)) ∧
    (¬ countStatus results LineStatus.fullyAllocated =
        (st.orderItems.filter (fun oi => oi.orderId == orderId)).length →
      countStatus results LineStatus.allocationFailed =
        (st.orderItems.filter (fun oi => oi.orderId == orderId)).length →
      allocateOrder nullsLast today st orderId =
        (Except.error AllocError.insufficientAll, st)) ∧
    (¬ countStatus results LineStatus.fullyAllocated =
        (st.orderItems.filter (fun oi => oi.orderId == orderId)).length →
      ¬ countStatus results LineStatus.allocationFailed =
        (st.orderItems.filter (fun oi => oi.orderId == orderId)).length →
      allocateOrder nullsLast today st orderId =
        (Except.ok
          { orderId := o.id, orderNo := o.orderNo, status := o.status,
            itemsAllocated := countStatus results LineStatus.fullyAllocated,
            itemsPartial :=
              countStatus results LineStatus.partiallyAllocated,
            itemsFailed := countStatus results LineStatus.allocationFailed,
            details := results },
         { st1 with notifications :=
            { level := NotifLevel.warning } :: st1.notifications })) := by
  unfold allocateOrder
  rw [ho]
  dsimp only
  rw [if_neg hnc, if_neg (by simp [hne]), hp]
  dsimp only
  refine ⟨fun h1 => ?_, fun h1 h2 => ?_, fun h1 h2 => ?_⟩
  · rw [if_pos h1]
  · rw [if_neg h1, if_pos h2]
  · rw [if_neg h1, if_neg h2]

/-- Witness for C4 (amended): the total-failure branch at `stNoStock` rolls
back to the entry state and raises `AllocationError`. -/
theorem allocateOrder_outcome_rule_witness :
    allocateOrder false 0 stNoStock 1 =
      (Except.error AllocError.insufficientAll, stNoStock) :=
  (allocateOrder_outcome_rule false 0 stNoStock 1
      ⟨1, "ORD-002", OrderStatus.new⟩ rfl (by decide) rfl
      [{ orderItemId := 1, itemSku := "TEST-001",
         status := LineStatus.allocationFailed, qtyRequested := 5,
         qtyAllocated := 0, qtyRemaining := some 5, allocations := [] }]
      stNoStock rfl).2.1 (by decide) (by decide)
